import Mathlib

/-!
Verification of the finbuddy server core (src/server.js): the credential
hasher, the signed-session token codec, the JSON body/record handling and
the per-user CRUD routes of `handleApi`.

Modelling conventions:
* JS strings are modelled as `List Char`; all strings handled by the token
  subsystem are ASCII, and UTF-8 byte encoding is modelled per code point.
* JS numbers appearing in the core (identifiers, millisecond timestamps,
  amounts) are modelled as `Int`; `NaN` results of JS number coercion are
  modelled as the `none` case of `Option Int`.
* The external SHA-256 primitive (`crypto.createHash('sha256')`) is modelled
  as an arbitrary function `h : List Char → Nat` giving the 256-bit digest
  value of the input; `digest('hex')` is modelled concretely as fixed-width
  hex encoding of that value.  Theorems hold for every such `h`;
  collision-resistance is surfaced as an explicit hypothesis where needed.
* `Date.now()` is passed in explicitly as the current instant.
-/

set_option maxRecDepth 20000

/-- JSON values, as produced by `JSON.parse`.  Objects keep their key order;
numbers are modelled as integers (every number handled by the token and
record core is an integer: identifiers and millisecond timestamps). -/
inductive JVal where
| jnull : JVal
| jbool (b : Bool) : JVal
| jnum (n : Int) : JVal
| jstr (s : List Char) : JVal
| jarr (xs : List JVal) : JVal
| jobj (fields : List (List Char × JVal)) : JVal

open JVal

/-- A JS object: an ordered association list of string keys to values. -/
abbrev JObj := List (List Char × JVal)

/-- Property read `o[k]` on an object: first entry with the given key
(objects built by our parser and merge have unique keys). -/
def getField : JObj → List Char → Option JVal
| [], _ => none
| (k1, v) :: rest, k => if k1 = k then some v else getField rest k

/-- Write `o[k] = v`: overwrite in place when the key exists (keeping key
order, as JS objects do), else append the new key. -/
def setField (o : JObj) (k : List Char) (v : JVal) : JObj :=
  if o.any (fun p => p.1 = k) then
    o.map (fun p => if p.1 = k then (k, v) else p)
  else o ++ [(k, v)]

/-- Property read on an arbitrary value: `v.k` is `undefined` (`none`) on
every non-object except `null`, whose property reads throw.  The throw is
modelled explicitly at the one reachable site, the expiry read in
`verifyToken`; a JSON `null` request body, whose destructuring would throw
in a route, is modelled as simply having no fields (no claim involves
one). -/
def getAttr : JVal → List Char → Option JVal
| jobj o, k => getField o k
| _, _ => none

/-- Little-endian base-10 digits, with explicit fuel so that the definition
is structural and kernel-reducible. -/
def digitsRevAux : Nat → Nat → List Nat
| 0, _ => []
| _ + 1, 0 => []
| fuel + 1, n + 1 => ((n + 1) % 10) :: digitsRevAux fuel ((n + 1) / 10)

/-- Little-endian base-10 digits of a natural number (empty for 0). -/
def digitsRev (n : Nat) : List Nat := digitsRevAux n n

theorem digitsRevAux_eq_digits (fuel n : Nat) (h : n ≤ fuel) :
    digitsRevAux fuel n = Nat.digits 10 n := by
  induction fuel generalizing n with
  | zero =>
    interval_cases n
    simp [digitsRevAux]
  | succ f ih =>
    cases n with
    | zero => simp [digitsRevAux]
    | succ m =>
      rw [digitsRevAux, show (10 : Nat) = 8 + 2 from rfl, Nat.digits_add_two_add_one]
      rw [show (8 : Nat) + 2 = 10 from rfl]
      rw [ih ((m + 1) / 10) (by omega)]

theorem digitsRev_eq_digits (n : Nat) : digitsRev n = Nat.digits 10 n :=
  digitsRevAux_eq_digits n n (Nat.le_refl n)

/-- Decimal digit characters. -/
def digitChar (d : Nat) : Char := (List.getD ("0123456789".data) d '0')

/-- Decimal representation of a natural number as JS would print it. -/
def natToChars (n : Nat) : List Char :=
  if n = 0 then ['0'] else ((digitsRev n).reverse.map digitChar)

/-- Decimal representation of an integer as `JSON.stringify` prints it. -/
def intToChars (n : Int) : List Char :=
  if n < 0 then '-' :: natToChars n.natAbs else natToChars n.toNat

/-- Decimal digit test, as a Bool on character codes. -/
def isDig (c : Char) : Bool := 48 ≤ c.toNat && c.toNat ≤ 57

/-- Consume a maximal run of decimal digits, accumulating their value. -/
def parseDigits : Nat → List Char → Nat × List Char
| acc, c :: rest =>
    if isDig c then parseDigits (acc * 10 + (c.toNat - 48)) rest
    else (acc, c :: rest)
| acc, [] => (acc, [])

theorem digitChar_spec (d : Nat) (h : d < 10) :
    (digitChar d).toNat = 48 + d ∧ isDig (digitChar d) = true := by
  interval_cases d <;> exact ⟨by decide, by decide⟩

/-- Digits stop the scan: any non-digit head (or the end) ends `parseDigits`. -/
def headNotDig : List Char → Prop
| [] => True
| c :: _ => isDig c = false

theorem parseDigits_append (ds : List Nat) (rest : List Char) (acc : Nat)
    (hds : ∀ d ∈ ds, d < 10) (hrest : headNotDig rest) :
    parseDigits acc (ds.map digitChar ++ rest) =
      (ds.foldl (fun a d => a * 10 + d) acc, rest) := by
  induction ds generalizing acc with
  | nil =>
    cases rest with
    | nil => simp [parseDigits]
    | cons c cs =>
      simp only [List.map_nil, List.nil_append]
      rw [parseDigits]
      simp only [headNotDig] at hrest
      simp [hrest]
  | cons d ds ih =>
    have hd : d < 10 := hds d (by simp)
    obtain ⟨h1, h2⟩ := digitChar_spec d hd
    simp only [List.map_cons, List.cons_append]
    rw [parseDigits]
    simp only [h2, if_true, h1]
    rw [ih _ (fun x hx => hds x (by simp [hx]))]
    have hdd : 48 + d - 48 = d := by omega
    simp [hdd]

theorem foldl_digits_rev (L : List Nat) (a : Nat) :
    L.reverse.foldl (fun x d => x * 10 + d) a =
      a * 10 ^ L.length + Nat.ofDigits 10 L := by
  induction L generalizing a with
  | nil => simp
  | cons d L ih =>
    simp only [List.reverse_cons, List.foldl_append, List.foldl_cons, List.foldl_nil,
      Nat.ofDigits_cons, List.length_cons, ih]
    ring

theorem parseDigits_natToChars (n : Nat) (rest : List Char) (hrest : headNotDig rest) :
    parseDigits 0 (natToChars n ++ rest) = (n, rest) := by
  by_cases h0 : n = 0
  · subst h0
    simp only [natToChars, if_true]
    rw [show (['0'] : List Char) ++ rest = ([(0 : Nat)].map digitChar) ++ rest by
      simp [digitChar]]
    rw [parseDigits_append [0] rest 0 (by simp) hrest]
    simp
  · simp only [natToChars, h0, if_false]
    rw [digitsRev_eq_digits]
    rw [parseDigits_append (Nat.digits 10 n).reverse rest 0
      (fun d hd => Nat.digits_lt_base (by norm_num) (List.mem_reverse.mp hd)) hrest]
    rw [foldl_digits_rev]
    simp [Nat.ofDigits_digits]

/-- JSON whitespace test, by character code (space, newline, tab, return). -/
def isWsChar (c : Char) : Bool :=
  c.toNat = 32 || c.toNat = 10 || c.toNat = 9 || c.toNat = 13

/-- Skip leading JSON whitespace. -/
def skipWs : List Char → List Char
| c :: rest => if isWsChar c then skipWs rest else c :: rest
| [] => []

/-- Parse the body of a JSON string after the opening quote, handling the
basic escapes (`\"`, `\\`, `\/`, `\n`, `\t`, `\r`); returns the string
contents and the input after the closing quote.  Character codes: 34 `"`,
92 backslash, 47 `/`. -/
def parseStrAux : List Char → List Char → Option (List Char × List Char)
| acc, c :: rest =>
    if c.toNat = 34 then some (acc.reverse, rest)
    else if c.toNat = 92 then
      match rest with
      | e :: rest2 =>
          if e.toNat = 34 ∨ e.toNat = 92 ∨ e.toNat = 47 then parseStrAux (e :: acc) rest2
          else if e.toNat = 110 then parseStrAux ('\n' :: acc) rest2
          else if e.toNat = 116 then parseStrAux ('\t' :: acc) rest2
          else if e.toNat = 114 then parseStrAux ('\r' :: acc) rest2
          else none
      | [] => none
    else parseStrAux (c :: acc) rest
| _, [] => none

/-- Parse a JSON number: an optional minus sign (code 45) and a digit run.
Fractional and exponent forms are outside the integer fragment every number
in this server belongs to. -/
def parseJNum : List Char → Option (Int × List Char)
| c :: rest =>
    if c.toNat = 45 then
      match rest with
      | d :: _ =>
          if isDig d then
            some (-(((parseDigits 0 rest).1 : Nat) : Int), (parseDigits 0 rest).2)
          else none
      | [] => none
    else if isDig c then
      some ((((parseDigits 0 (c :: rest)).1 : Nat) : Int), (parseDigits 0 (c :: rest)).2)
    else none
| [] => none

mutual

/-- Parse one JSON value, returning it with the unconsumed input.  Fuel makes
the recursion structural; `jsonParse` supplies enough for any input.
Character codes: 34 `"`, 91 and 93 the square brackets, 123 and 125 the
curly braces. -/
def parseVal : Nat → List Char → Option (JVal × List Char)
| 0, _ => none
| fuel + 1, s =>
    match skipWs s with
    | [] => none
    | c :: rest =>
        if (c :: rest).take 4 = "null".data then some (jnull, rest.drop 3)
        else if (c :: rest).take 4 = "true".data then some (jbool true, rest.drop 3)
        else if (c :: rest).take 5 = "false".data then some (jbool false, rest.drop 4)
        else if c.toNat = 34 then
          match parseStrAux [] rest with
          | some (str, r1) => some (jstr str, r1)
          | none => none
        else if c.toNat = 91 then
          match skipWs rest with
          | [] => none
          | c1 :: r1 =>
              if c1.toNat = 93 then some (jarr [], r1)
              else parseArrItems fuel [] (c1 :: r1)
        else if c.toNat = 123 then
          match skipWs rest with
          | [] => none
          | c1 :: r1 =>
              if c1.toNat = 125 then some (jobj [], r1)
              else parseFields fuel [] (c1 :: r1)
        else (parseJNum (c :: rest)).map (fun p => (jnum p.1, p.2))

/-- Parse the comma-separated items of a JSON array after the opening
bracket (the empty-array case is handled by the caller).  Codes: 44 the
comma, 93 the closing bracket. -/
def parseArrItems : Nat → List JVal → List Char → Option (JVal × List Char)
| 0, _, _ => none
| fuel + 1, acc, s =>
    match parseVal fuel s with
    | some (v, r1) =>
        (match skipWs r1 with
         | c :: r2 =>
             if c.toNat = 44 then parseArrItems fuel (acc ++ [v]) r2
             else if c.toNat = 93 then some (jarr (acc ++ [v]), r2)
             else none
         | [] => none)
    | none => none

/-- Parse the key-value fields of a JSON object after the opening brace
(the empty-object case is handled by the caller).  A repeated key
overwrites the earlier one, as `JSON.parse` does.  Codes: 34 `"`, 58 the
colon, 44 the comma, 125 the closing brace. -/
def parseFields : Nat → JObj → List Char → Option (JVal × List Char)
| 0, _, _ => none
| fuel + 1, acc, s =>
    match skipWs s with
    | c :: rest =>
        if c.toNat = 34 then
          match parseStrAux [] rest with
          | some (key, r1) =>
              (match skipWs r1 with
               | c2 :: r2 =>
                   if c2.toNat = 58 then
                     match parseVal fuel r2 with
                     | some (v, r3) =>
                         (match skipWs r3 with
                          | c4 :: r4 =>
                              if c4.toNat = 44 then
                                parseFields fuel (setField acc key v) r4
                              else if c4.toNat = 125 then
                                some (jobj (setField acc key v), r4)
                              else none
                          | [] => none)
                     | none => none
                   else none
               | [] => none)
          | none => none
        else none
    | [] => none

end

/-- Model of `JSON.parse` on the integer fragment of JSON: parse one value
and require only trailing whitespace after it; every failure that throws in
JS is `none` here. -/
def jsonParse (s : List Char) : Option JVal :=
  match parseVal (s.length + 3) s with
  | some (v, rest) => if skipWs rest = [] then some v else none
  | none => none

theorem char_ne_of_toNat_ne {c d : Char} (h : c.toNat ≠ d.toNat) : c ≠ d :=
  fun he => h (he ▸ rfl)

theorem isDig_toNat {c : Char} (h : isDig c = true) : 48 ≤ c.toNat ∧ c.toNat ≤ 57 := by
  simpa [isDig, Bool.and_eq_true, decide_eq_true_eq] using h

theorem natToChars_cons (n : Nat) :
    ∃ c cs, natToChars n = c :: cs ∧ isDig c = true ∧
      (∀ x ∈ natToChars n, isDig x = true) := by
  have hall : ∀ x ∈ natToChars n, isDig x = true := by
    intro x hx
    by_cases h0 : n = 0
    · subst h0
      simp only [natToChars, if_true] at hx
      simp only [List.mem_singleton] at hx
      subst hx; decide
    · simp only [natToChars, h0, if_false] at hx
      rw [digitsRev_eq_digits] at hx
      obtain ⟨d, hd, rfl⟩ := List.mem_map.mp hx
      have : d < 10 := Nat.digits_lt_base (by norm_num) (List.mem_reverse.mp hd)
      exact (digitChar_spec d this).2
  by_cases h0 : n = 0
  · subst h0
    exact ⟨'0', [], rfl, by decide, hall⟩
  · have hne : natToChars n ≠ [] := by
      simp only [natToChars, h0, if_false]
      rw [digitsRev_eq_digits]
      simp [List.map_eq_nil_iff, List.reverse_eq_nil_iff, Nat.digits_ne_nil_iff_ne_zero, h0]
    cases hcs : natToChars n with
    | nil => exact absurd hcs hne
    | cons c cs =>
      have hall2 : ∀ x ∈ c :: cs, isDig x = true := hcs ▸ hall
      exact ⟨c, cs, rfl, hall2 c (List.mem_cons_self c cs), hall2⟩

theorem parseJNum_intToChars (n : Int) (rest : List Char) (hrest : headNotDig rest) :
    parseJNum (intToChars n ++ rest) = some (n, rest) := by
  by_cases hneg : n < 0
  · simp only [intToChars, hneg, if_true]
    obtain ⟨c, cs, hcons, hdig, _⟩ := natToChars_cons n.natAbs
    rw [List.cons_append, parseJNum.eq_def]
    simp only [show ('-').toNat = 45 from rfl, if_true]
    rw [hcons, List.cons_append]
    simp only [hdig, if_true]
    rw [← List.cons_append, ← hcons, parseDigits_natToChars n.natAbs rest hrest]
    simp only [Option.some.injEq, Prod.mk.injEq]
    constructor
    · omega
    · trivial
  · simp only [intToChars, hneg, if_false]
    obtain ⟨c, cs, hcons, hdig, _⟩ := natToChars_cons n.toNat
    rw [hcons, List.cons_append, parseJNum.eq_def]
    have h45 : c.toNat ≠ 45 := by have := isDig_toNat hdig; omega
    simp only [h45, if_false, hdig, if_true]
    rw [← List.cons_append, ← hcons, parseDigits_natToChars n.toNat rest hrest]
    simp only [Option.some.injEq, Prod.mk.injEq]
    constructor
    · omega
    · trivial

theorem take_ne_of_head_ne {c d : Char} {cs ds : List Char} (h : c ≠ d) (k : Nat) :
    (c :: cs).take (k + 1) ≠ d :: ds := by
  intro hh
  rw [List.take_succ_cons] at hh
  injection hh with h1 h2
  exact h h1

theorem parseVal_intToChars (f : Nat) (n : Int) (rest : List Char)
    (hrest : headNotDig rest) :
    parseVal (f + 1) (intToChars n ++ rest) = some (jnum n, rest) := by
  obtain ⟨c, cs, hcons, hb⟩ :
      ∃ c cs, intToChars n = c :: cs ∧
        (c.toNat = 45 ∨ (48 ≤ c.toNat ∧ c.toNat ≤ 57)) := by
    by_cases hneg : n < 0
    · exact ⟨'-', natToChars n.natAbs, by simp [intToChars, hneg], Or.inl rfl⟩
    · obtain ⟨c, cs, hc, hd, _⟩ := natToChars_cons n.toNat
      exact ⟨c, cs, by simp [intToChars, hneg, hc], Or.inr (isDig_toNat hd)⟩
  rw [hcons, List.cons_append]
  have hws : isWsChar c = false := by
    simp only [isWsChar, Bool.or_eq_false_iff, decide_eq_false_iff_not]
    omega
  have hn : c ≠ 'n' := char_ne_of_toNat_ne (by rw [show ('n').toNat = 110 from rfl]; omega)
  have ht : c ≠ 't' := char_ne_of_toNat_ne (by rw [show ('t').toNat = 116 from rfl]; omega)
  have hf : c ≠ 'f' := char_ne_of_toNat_ne (by rw [show ('f').toNat = 102 from rfl]; omega)
  have h34 : c.toNat ≠ 34 := by omega
  have h91 : c.toNat ≠ 91 := by omega
  have h123 : c.toNat ≠ 123 := by omega
  have hnull : ¬(List.take 4 (c :: (cs ++ rest)) = ['n', 'u', 'l', 'l']) := by
    rw [show (4 : Nat) = 3 + 1 from rfl, List.take_succ_cons]
    intro hh
    injection hh with h1 h2
    exact hn h1
  have htrue : ¬(List.take 4 (c :: (cs ++ rest)) = ['t', 'r', 'u', 'e']) := by
    rw [show (4 : Nat) = 3 + 1 from rfl, List.take_succ_cons]
    intro hh
    injection hh with h1 h2
    exact ht h1
  have hfalse : ¬(List.take 5 (c :: (cs ++ rest)) = ['f', 'a', 'l', 's', 'e']) := by
    rw [show (5 : Nat) = 4 + 1 from rfl, List.take_succ_cons]
    intro hh
    injection hh with h1 h2
    exact hf h1
  rw [parseVal.eq_def]
  simp only [skipWs, hws, Bool.false_eq_true, if_false]
  simp only [hnull, htrue, hfalse, h34, h91, h123, if_false]
  rw [← List.cons_append, ← hcons, parseJNum_intToChars n rest hrest]
  rfl

/-- Key of the user identifier field of the token payload. -/
def userIdKey : List Char := "userId".data

/-- Key of the expiry field of the token payload. -/
def expKey : List Char := "exp".data

/-- Exact output of `JSON.stringify({ userId, exp })` (src/server.js line 88):
object braces, double-quoted keys in insertion order, no spaces. -/
def stringifyPayload (u e : Int) : List Char :=
  "\x7b\"userId\":".data ++ intToChars u ++ ",\"exp\":".data ++ intToChars e ++ "\x7d".data

/-- The parsed token payload: an object with the userId and exp fields. -/
def payloadJ (u e : Int) : JVal := jobj [(userIdKey, jnum u), (expKey, jnum e)]

theorem stringifyPayload_cons (u e : Int) :
    stringifyPayload u e =
      '\x7b' :: '"' :: 'u' :: 's' :: 'e' :: 'r' :: 'I' :: 'd' :: '"' :: ':' ::
        (intToChars u ++ (',' :: '"' :: 'e' :: 'x' :: 'p' :: '"' :: ':' ::
          (intToChars e ++ ['\x7d']))) := by
  simp [stringifyPayload]

theorem parseVal_payload (f : Nat) (u e : Int) :
    parseVal (f + 4) (stringifyPayload u e) = some (payloadJ u e, []) := by
  have hval1 : parseVal (f + 1 + 1) (intToChars u ++ (',' :: '"' :: 'e' :: 'x' :: 'p' :: '"' :: ':' ::
      (intToChars e ++ ['\x7d']))) = some (jnum u, ',' :: '"' :: 'e' :: 'x' :: 'p' :: '"' :: ':' ::
      (intToChars e ++ ['\x7d'])) :=
    parseVal_intToChars (f + 1) u _ (by trivial)
  have hval2 : parseVal (f + 1) (intToChars e ++ ['\x7d']) = some (jnum e, ['\x7d']) :=
    parseVal_intToChars f e _ (by trivial)
  rw [stringifyPayload_cons]
  rw [show f + 4 = (f + 3) + 1 from rfl, parseVal.eq_def]
  simp [skipWs, parseStrAux, isWsChar, parseFields, hval1, hval2, setField, userIdKey, expKey,
    payloadJ]

theorem jsonParse_stringifyPayload (u e : Int) :
    jsonParse (stringifyPayload u e) = some (payloadJ u e) := by
  have hlen : 1 ≤ (stringifyPayload u e).length := by
    rw [stringifyPayload_cons]
    simp
  obtain ⟨m, hm⟩ : ∃ m, (stringifyPayload u e).length + 3 = m + 4 :=
    ⟨(stringifyPayload u e).length - 1, by omega⟩
  rw [jsonParse, hm, parseVal_payload]
  rfl

/-- The base64 alphabet used by `Buffer.toString('base64')`. -/
def b64alpha : List Char :=
  "ABCDEFGHIJKLMNOPQRSTUVWXYZabcdefghijklmnopqrstuvwxyz0123456789+/".data

/-- Character of a six-bit group. -/
def b64c (n : Nat) : Char := b64alpha.getD n 'A'

/-- Index of a character in the alphabet. -/
def b64idx : List Char → Char → Option Nat
| [], _ => none
| a :: rest, c => if a = c then some 0 else (b64idx rest c).map (fun i => i + 1)

/-- Six-bit value of a base64 character, `none` off the alphabet. -/
def b64v (c : Char) : Option Nat := b64idx b64alpha c

/-- Base64-encode a byte sequence, three bytes to four characters, with the
`=` padding `Buffer.toString('base64')` emits. -/
def b64encode : List Nat → List Char
| [] => []
| [b1] => [b64c (b1 / 4), b64c (b1 % 4 * 16), '=', '=']
| [b1, b2] => [b64c (b1 / 4), b64c (b1 % 4 * 16 + b2 / 16), b64c (b2 % 16 * 4), '=']
| b1 :: b2 :: b3 :: rest =>
    b64c (b1 / 4) :: b64c (b1 % 4 * 16 + b2 / 16) :: b64c (b2 % 16 * 4 + b3 / 64) ::
      b64c (b3 % 64) :: b64encode rest

/-- Base64-decode, tolerantly as `Buffer.from(s, 'base64')` is: padding ends
the data, characters off the alphabet or a short trailing group drop the
remainder, and no input throws. -/
def b64decode : List Char → List Nat
| c1 :: c2 :: c3 :: c4 :: rest =>
    match b64v c1, b64v c2 with
    | some s1, some s2 =>
        if c3 = '=' then [s1 * 4 + s2 / 16]
        else match b64v c3 with
          | some s3 =>
              if c4 = '=' then [s1 * 4 + s2 / 16, s2 % 16 * 16 + s3 / 4]
              else match b64v c4 with
                | some s4 =>
                    (s1 * 4 + s2 / 16) :: (s2 % 16 * 16 + s3 / 4) ::
                      (s3 % 4 * 64 + s4) :: b64decode rest
                | none => [s1 * 4 + s2 / 16, s2 % 16 * 16 + s3 / 4]
          | none => [s1 * 4 + s2 / 16]
    | _, _ => []
| _ => []

theorem b64v_b64c : ∀ s, s < 64 → b64v (b64c s) = some s := by decide

theorem b64c_props : ∀ s, s < 64 →
    b64c s ≠ '=' ∧ b64c s ≠ '.' ∧ isWsChar (b64c s) = false := by decide

theorem b64decode_encode (bs : List Nat) (h : ∀ b ∈ bs, b < 256) :
    b64decode (b64encode bs) = bs := by
  induction bs using b64encode.induct with
  | case1 => rfl
  | case2 b1 =>
    have hb1 : b1 < 256 := h b1 (by simp)
    rw [b64encode, b64decode]
    rw [b64v_b64c _ (by omega), b64v_b64c _ (by omega)]
    simp only [if_true, List.cons.injEq]
    constructor
    · omega
    · trivial
  | case3 b1 b2 =>
    have hb1 : b1 < 256 := h b1 (by simp)
    have hb2 : b2 < 256 := h b2 (by simp)
    rw [b64encode, b64decode]
    rw [b64v_b64c _ (by omega), b64v_b64c _ (by omega)]
    have hne : b64c (b2 % 16 * 4) ≠ '=' := (b64c_props _ (by omega)).1
    simp only [hne, if_false]
    rw [b64v_b64c _ (by omega)]
    simp only [if_true, List.cons.injEq]
    refine ⟨by omega, by omega, trivial⟩
  | case4 b1 b2 b3 rest ih =>
    have hb1 : b1 < 256 := h b1 (by simp)
    have hb2 : b2 < 256 := h b2 (by simp)
    have hb3 : b3 < 256 := h b3 (by simp)
    rw [b64encode, b64decode]
    rw [b64v_b64c _ (by omega), b64v_b64c _ (by omega)]
    have hne3 : b64c (b2 % 16 * 4 + b3 / 64) ≠ '=' := (b64c_props _ (by omega)).1
    simp only [hne3, if_false]
    rw [b64v_b64c _ (by omega)]
    have hne4 : b64c (b3 % 64) ≠ '=' := (b64c_props _ (by omega)).1
    simp only [hne4, if_false]
    rw [b64v_b64c _ (by omega)]
    rw [ih (fun b hb => h b (by simp [hb]))]
    simp only [List.cons.injEq]
    refine ⟨by omega, by omega, by omega, trivial⟩

theorem b64encode_props (bs : List Nat) (h : ∀ b ∈ bs, b < 256) :
    ∀ c ∈ b64encode bs, c ≠ '.' ∧ isWsChar c = false := by
  induction bs using b64encode.induct with
  | case1 => simp [b64encode]
  | case2 b1 =>
    have hb1 : b1 < 256 := h b1 (by simp)
    intro c hc
    rw [b64encode] at hc
    simp only [List.mem_cons, List.not_mem_nil, or_false] at hc
    rcases hc with rfl | rfl | rfl | rfl
    · exact ⟨(b64c_props _ (by omega)).2.1, (b64c_props _ (by omega)).2.2⟩
    · exact ⟨(b64c_props _ (by omega)).2.1, (b64c_props _ (by omega)).2.2⟩
    · exact ⟨by decide, by decide⟩
    · exact ⟨by decide, by decide⟩
  | case3 b1 b2 =>
    have hb1 : b1 < 256 := h b1 (by simp)
    have hb2 : b2 < 256 := h b2 (by simp)
    intro c hc
    rw [b64encode] at hc
    simp only [List.mem_cons, List.not_mem_nil, or_false] at hc
    rcases hc with rfl | rfl | rfl | rfl
    · exact ⟨(b64c_props _ (by omega)).2.1, (b64c_props _ (by omega)).2.2⟩
    · exact ⟨(b64c_props _ (by omega)).2.1, (b64c_props _ (by omega)).2.2⟩
    · exact ⟨(b64c_props _ (by omega)).2.1, (b64c_props _ (by omega)).2.2⟩
    · exact ⟨by decide, by decide⟩
  | case4 b1 b2 b3 rest ih =>
    have hb1 : b1 < 256 := h b1 (by simp)
    have hb2 : b2 < 256 := h b2 (by simp)
    have hb3 : b3 < 256 := h b3 (by simp)
    intro c hc
    rw [b64encode] at hc
    simp only [List.mem_cons] at hc
    rcases hc with rfl | rfl | rfl | rfl | hc
    · exact ⟨(b64c_props _ (by omega)).2.1, (b64c_props _ (by omega)).2.2⟩
    · exact ⟨(b64c_props _ (by omega)).2.1, (b64c_props _ (by omega)).2.2⟩
    · exact ⟨(b64c_props _ (by omega)).2.1, (b64c_props _ (by omega)).2.2⟩
    · exact ⟨(b64c_props _ (by omega)).2.1, (b64c_props _ (by omega)).2.2⟩
    · exact ih (fun b hb => h b (by simp [hb])) c hc

/-- Hexadecimal digit characters, as `digest('hex')` prints them. -/
def hexChar (d : Nat) : Char := "0123456789abcdef".data.getD d '0'

/-- A fixed number of little-endian base-16 digits (leading zeros kept). -/
def hexDigitsAux : Nat → Nat → List Nat
| 0, _ => []
| k + 1, m => (m % 16) :: hexDigitsAux k (m / 16)

/-- The 64-character lowercase hex encoding of a 256-bit value: the exact
shape of a SHA-256 `digest('hex')` string. -/
def toHex64 (m : Nat) : List Char :=
  ((hexDigitsAux 64 (m % (2 ^ 256))).reverse.map hexChar)

theorem hexDigitsAux_length (k m : Nat) : (hexDigitsAux k m).length = k := by
  induction k generalizing m with
  | zero => rfl
  | succ k ih => simp [hexDigitsAux, ih]

theorem toHex64_length (m : Nat) : (toHex64 m).length = 64 := by
  simp [toHex64, hexDigitsAux_length]

theorem hexChar_props (d : Nat) :
    hexChar d ≠ '.' ∧ isWsChar (hexChar d) = false := by
  by_cases h : d < 16
  · interval_cases d <;> exact ⟨by decide, by decide⟩
  · rw [hexChar, List.getD_eq_default _ _ (by simp at h ⊢; omega)]
    exact ⟨by decide, by decide⟩

theorem toHex64_props (m : Nat) : ∀ c ∈ toHex64 m, c ≠ '.' ∧ isWsChar c = false := by
  intro c hc
  simp only [toHex64, List.mem_map, List.mem_reverse] at hc
  obtain ⟨d, _, rfl⟩ := hc
  exact hexChar_props d

/-- Model of the JS `token.split('.')` (src/server.js line 106): cut the
string at every dot. -/
def splitDotAux : List Char → List Char → List (List Char)
| [], acc => [acc.reverse]
| c :: rest, acc =>
    if c = '.' then acc.reverse :: splitDotAux rest [] else splitDotAux rest (c :: acc)

/-- All the dot-separated parts of a string, in order. -/
def splitDot (s : List Char) : List (List Char) := splitDotAux s []

theorem splitDotAux_no_dot (l : List Char) (acc : List Char)
    (h : ∀ c ∈ l, c ≠ '.') : splitDotAux l acc = [acc.reverse ++ l] := by
  induction l generalizing acc with
  | nil => simp [splitDotAux]
  | cons c rest ih =>
    rw [splitDotAux, if_neg (h c (by simp))]
    rw [ih (c :: acc) (fun x hx => h x (by simp [hx]))]
    simp

theorem splitDotAux_append (a b acc : List Char) (h : ∀ c ∈ a, c ≠ '.') :
    splitDotAux (a ++ '.' :: b) acc = (acc.reverse ++ a) :: splitDotAux b [] := by
  induction a generalizing acc with
  | nil => simp [splitDotAux]
  | cons c rest ih =>
    rw [List.cons_append, splitDotAux, if_neg (h c (by simp))]
    rw [ih (c :: acc) (fun x hx => h x (by simp [hx]))]
    simp

theorem splitDot_two_parts (a b : List Char) (ha : ∀ c ∈ a, c ≠ '.')
    (hb : ∀ c ∈ b, c ≠ '.') : splitDot (a ++ '.' :: b) = [a, b] := by
  rw [splitDot, splitDotAux_append a b [] ha]
  rw [splitDotAux_no_dot b [] hb]
  simp

theorem splitDotAux_length (l acc : List Char) :
    (splitDotAux l acc).length = l.count '.' + 1 := by
  induction l generalizing acc with
  | nil => simp [splitDotAux]
  | cons c rest ih =>
    rw [splitDotAux]
    by_cases hc : c = '.'
    · subst hc
      simp [List.count_cons, ih]
    · rw [if_neg hc, ih]
      simp [List.count_cons, hc]

theorem splitDot_length (l : List Char) : (splitDot l).length = l.count '.' + 1 :=
  splitDotAux_length l []

/-- UTF-8 bytes of an ASCII string, one byte per code point (every string the
token subsystem handles is ASCII). -/
def strBytes (s : List Char) : List Nat := s.map Char.toNat

/-- String of a byte sequence, the inverse of `strBytes` on ASCII data. -/
def bytesToStr (bs : List Nat) : List Char := bs.map Char.ofNat

theorem bytesToStr_strBytes (s : List Char) : bytesToStr (strBytes s) = s := by
  simp [strBytes, bytesToStr, List.map_map, Function.comp_def, Char.ofNat_toNat]

theorem intToChars_bytes (n : Int) : ∀ c ∈ intToChars n, c.toNat < 256 := by
  intro c hc
  have hdig : ∀ x, isDig x = true → x.toNat < 256 := by
    intro x hx
    have := isDig_toNat hx
    omega
  by_cases hneg : n < 0
  · simp only [intToChars, hneg, if_true, List.mem_cons] at hc
    rcases hc with rfl | hc
    · decide
    · obtain ⟨_, _, _, _, hall⟩ := natToChars_cons n.natAbs
      exact hdig c (hall c hc)
  · simp only [intToChars, hneg, if_false] at hc
    obtain ⟨_, _, _, _, hall⟩ := natToChars_cons n.toNat
    exact hdig c (hall c hc)

theorem stringifyPayload_bytes (u e : Int) :
    ∀ c ∈ stringifyPayload u e, c.toNat < 256 := by
  intro c hc
  simp only [stringifyPayload, List.mem_append] at hc
  rcases hc with ((((hc | hc) | hc) | hc) | hc)
  · exact (by decide : ∀ x ∈ ("\x7b\"userId\":".data), x.toNat < 256) c hc
  · exact intToChars_bytes u c hc
  · exact (by decide : ∀ x ∈ (",\"exp\":".data), x.toNat < 256) c hc
  · exact intToChars_bytes e c hc
  · exact (by decide : ∀ x ∈ ("\x7d".data), x.toNat < 256) c hc

/-- The hardcoded signing secret (src/server.js line 17). -/
def SECRET : List Char := "change_this_secret_in_production".data

/-- Hex digest of the abstract SHA-256 value of a string: the model of
`crypto.createHash('sha256').update(s).digest('hex')` for digest function
`h`. -/
def digestHex (h : List Char → Nat) (s : List Char) : List Char := toHex64 (h s)

/-- `hashPassword(password, salt)` (src/server.js lines 68-73): SHA-256 of
the concatenation of password and salt, hex encoded. -/
def hashPassword (h : List Char → Nat) (password salt : List Char) : List Char :=
  digestHex h (password ++ salt)

/-- `generateToken(userId)` at instant `now` (src/server.js lines 83-95):
base64 of the JSON payload `{ userId, exp: now + 24h }`, a dot, then the hex
SHA-256 of the base64 payload concatenated with the secret. -/
def generateToken (h : List Char → Nat) (userId : Int) (now : Int) : List Char :=
  b64encode (strBytes (stringifyPayload userId (now + 24 * 60 * 60 * 1000))) ++
    '.' :: digestHex h
      (b64encode (strBytes (stringifyPayload userId (now + 24 * 60 * 60 * 1000))) ++ SECRET)

/-- JS `ToNumber` of a string (integer fragment): empty and blank strings
give 0; an optional sign and digit run gives its value; anything else is
`NaN` (`none`).  A leading `+` sign is not modelled (unused here). -/
def strToNumber (s : List Char) : Option Int :=
  match skipWs s with
  | [] => some 0
  | t =>
      match parseJNum t with
      | some (n, rest) => if skipWs rest = [] then some n else none
      | none => none

/-- The comparison `payload.exp < Date.now()` of src/server.js line 117,
with the JS coercions: a missing field (`undefined`) compares as `NaN`,
hence false; booleans and `null` coerce to 0 or 1; strings coerce through
`ToNumber`; objects coerce to `NaN` (arrays, which coerce through their
joined string form, are modelled as `NaN` too — no array ever reaches this
comparison). -/
def jsLtNow : Option JVal → Int → Bool
| none, _ => false
| some (jnum m), now => decide (m < now)
| some (jbool b), now => decide ((if b then (1 : Int) else 0) < now)
| some jnull, now => decide ((0 : Int) < now)
| some (jstr s), now =>
    (match strToNumber s with
     | some m => decide (m < now)
     | none => false)
| some (jarr _), _ => false
| some (jobj _), _ => false

/-- `verifyToken(token)` at instant `now` (src/server.js lines 104-122):
reject the empty token, split on dots into exactly two parts, recompute and
compare the signature, base64-decode and JSON-parse the payload, then
reject if `payload.exp < now`.  A `null` payload is rejected because
`null.exp` throws into the surrounding catch. -/
def verifyToken (h : List Char → Nat) (now : Int) (token : List Char) : Option JVal :=
  if token = [] then none
  else
    match splitDot token with
    | [base64Payload, signature] =>
        if signature = digestHex h (base64Payload ++ SECRET) then
          match jsonParse (bytesToStr (b64decode base64Payload)) with
          | some jnull => none
          | some payload => if jsLtNow (getAttr payload expKey) now then none else some payload
          | none => none
        else none
    | _ => none

theorem generateToken_ne_nil (h : List Char → Nat) (u T : Int) :
    generateToken h u T ≠ [] := by
  rw [generateToken]
  intro hc
  rcases List.append_eq_nil.mp hc with ⟨_, h2⟩
  exact List.cons_ne_nil _ _ h2

theorem splitDot_generateToken (h : List Char → Nat) (u T : Int) :
    splitDot (generateToken h u T) =
      [b64encode (strBytes (stringifyPayload u (T + 24 * 60 * 60 * 1000))),
       digestHex h (b64encode (strBytes (stringifyPayload u (T + 24 * 60 * 60 * 1000))) ++ SECRET)] := by
  apply splitDot_two_parts
  · intro c hc
    exact (b64encode_props _ (by
      intro b hb
      simp only [strBytes, List.mem_map] at hb
      obtain ⟨x, hx, rfl⟩ := hb
      exact stringifyPayload_bytes _ _ x hx) c hc).1
  · intro c hc
    exact (toHex64_props _ c hc).1

theorem getAttr_payloadJ_exp (u e : Int) :
    getAttr (payloadJ u e) expKey = some (jnum e) := by
  rw [payloadJ, getAttr, getField, if_neg (by decide), getField, if_pos rfl]

theorem verifyToken_generateToken (h : List Char → Nat) (u T now : Int) :
    verifyToken h now (generateToken h u T) =
      if T + 24 * 60 * 60 * 1000 < now then none
      else some (payloadJ u (T + 24 * 60 * 60 * 1000)) := by
  rw [verifyToken, if_neg (generateToken_ne_nil h u T)]
  rw [show generateToken h u T =
    b64encode (strBytes (stringifyPayload u (T + 24 * 60 * 60 * 1000))) ++
      '.' :: digestHex h
        (b64encode (strBytes (stringifyPayload u (T + 24 * 60 * 60 * 1000))) ++ SECRET)
    from rfl]
  rw [← generateToken, splitDot_generateToken]
  simp only [if_pos rfl]
  rw [b64decode_encode _ (by
    intro b hb
    simp only [strBytes, List.mem_map] at hb
    obtain ⟨x, hx, rfl⟩ := hb
    exact stringifyPayload_bytes _ _ x hx)]
  rw [bytesToStr_strBytes, jsonParse_stringifyPayload]
  have hne : payloadJ u (T + 24 * 60 * 60 * 1000) ≠ jnull := by
    rw [payloadJ]
    intro hcc
    cases hcc
  rw [show (match some (payloadJ u (T + 24 * 60 * 60 * 1000)) with
    | some jnull => (none : Option JVal)
    | some payload => if jsLtNow (getAttr payload expKey) now then none else some payload
    | none => none) =
      (if jsLtNow (getAttr (payloadJ u (T + 24 * 60 * 60 * 1000)) expKey) now then none
       else some (payloadJ u (T + 24 * 60 * 60 * 1000))) from rfl]
  rw [getAttr_payloadJ_exp]
  by_cases hlt : T + 24 * 60 * 60 * 1000 < now
  · simp [jsLtNow, hlt]
  · simp [jsLtNow, hlt]

theorem verifyToken_not_two_parts (h : List Char → Nat) (now : Int) (token : List Char)
    (hlen : (splitDot token).length ≠ 2) : verifyToken h now token = none := by
  rw [verifyToken]
  by_cases he : token = []
  · simp [he]
  · rw [if_neg he]
    rcases hL : splitDot token with _ | ⟨a, _ | ⟨b, _ | ⟨c, t⟩⟩⟩
    · rfl
    · rfl
    · rw [hL] at hlen
      simp at hlen
    · rfl

theorem verifyToken_eq_two (h : List Char → Nat) (now : Int) (token p s : List Char)
    (hsplit : splitDot token = [p, s]) :
    verifyToken h now token =
      (if s = digestHex h (p ++ SECRET) then
        match jsonParse (bytesToStr (b64decode p)) with
        | some jnull => none
        | some payload => if jsLtNow (getAttr payload expKey) now then none else some payload
        | none => none
      else none) := by
  have he : token ≠ [] := by
    intro hc
    subst hc
    rw [show splitDot [] = [[]] from rfl] at hsplit
    injection hsplit with h1 h2
    injection h2
  rw [verifyToken, if_neg he, hsplit]

theorem verifyToken_decode_fail (h : List Char → Nat) (now : Int) (token p s : List Char)
    (hsplit : splitDot token = [p, s])
    (hdec : jsonParse (bytesToStr (b64decode p)) = none) :
    verifyToken h now token = none := by
  rw [verifyToken_eq_two h now token p s hsplit]
  by_cases hs : s = digestHex h (p ++ SECRET)
  · rw [if_pos hs, hdec]
  · rw [if_neg hs]

theorem verifyToken_null_payload (h : List Char → Nat) (now : Int) (token p s : List Char)
    (hsplit : splitDot token = [p, s])
    (hdec : jsonParse (bytesToStr (b64decode p)) = some jnull) :
    verifyToken h now token = none := by
  rw [verifyToken_eq_two h now token p s hsplit]
  by_cases hs : s = digestHex h (p ++ SECRET)
  · rw [if_pos hs, hdec]
  · rw [if_neg hs]

/-- The base64 payload segment of a freshly generated token. -/
def payloadSeg (u T : Int) : List Char :=
  b64encode (strBytes (stringifyPayload u (T + 24 * 60 * 60 * 1000)))

/-- The signature segment of a freshly generated token. -/
def sigSeg (h : List Char → Nat) (u T : Int) : List Char :=
  digestHex h (payloadSeg u T ++ SECRET)

theorem generateToken_eq_segs (h : List Char → Nat) (u T : Int) :
    generateToken h u T = payloadSeg u T ++ '.' :: sigSeg h u T := rfl

theorem payloadSeg_no_dot (u T : Int) : ∀ c ∈ payloadSeg u T, c ≠ '.' := by
  intro c hc
  exact (b64encode_props _ (by
    intro b hb
    simp only [strBytes, List.mem_map] at hb
    obtain ⟨x, hx, rfl⟩ := hb
    exact stringifyPayload_bytes _ _ x hx) c hc).1

theorem verifyToken_tampered_sig (h : List Char → Nat) (u T now : Int) (i : Nat) (c : Char)
    (hi : i < (sigSeg h u T).length) (hc : c ≠ (sigSeg h u T).get ⟨i, hi⟩) :
    verifyToken h now (payloadSeg u T ++ '.' :: (sigSeg h u T).set i c) = none := by
  by_cases hdot : c = '.'
  · subst hdot
    apply verifyToken_not_two_parts
    rw [splitDot_length]
    have hlt : i < ((sigSeg h u T).set i '.').length := by simpa using hi
    have hmem : '.' ∈ (sigSeg h u T).set i '.' := by
      have h1 : ((sigSeg h u T).set i '.')[i] = '.' := List.getElem_set_self hlt
      have h2 : ((sigSeg h u T).set i '.')[i] ∈ (sigSeg h u T).set i '.' :=
        List.getElem_mem hlt
      rw [h1] at h2
      exact h2
    have hcount : 1 ≤ ((sigSeg h u T).set i '.').count '.' := List.count_pos_iff.mpr hmem
    have hp : (payloadSeg u T).count '.' = 0 :=
      List.count_eq_zero.mpr (fun hmm => (payloadSeg_no_dot u T '.' hmm) rfl)
    rw [List.count_append, hp, List.count_cons_self]
    omega
  · have hnodot : ∀ x ∈ (sigSeg h u T).set i c, x ≠ '.' := by
      intro x hx
      rcases List.mem_or_eq_of_mem_set hx with hx2 | rfl
      · exact (toHex64_props _ x hx2).1
      · exact hdot
    rw [verifyToken_eq_two h now _ (payloadSeg u T) ((sigSeg h u T).set i c)
      (splitDot_two_parts _ _ (payloadSeg_no_dot u T) hnodot)]
    have hlt : i < ((sigSeg h u T).set i c).length := by simpa using hi
    have hset_ne : (sigSeg h u T).set i c ≠ digestHex h (payloadSeg u T ++ SECRET) := by
      intro heq
      have h1 : ((sigSeg h u T).set i c)[i]? = some c := by
        rw [List.getElem?_eq_getElem hlt, List.getElem_set_self hlt]
      have h2 : (sigSeg h u T).set i c = sigSeg h u T := heq
      rw [h2] at h1
      rw [List.getElem?_eq_getElem hi] at h1
      injection h1 with h3
      exact hc (by rw [← h3]; simp)
    rw [if_neg hset_ne]

/-- JS truthiness of a value. -/
def jsTruthy : JVal → Bool
| jnull => false
| jbool b => b
| jnum n => decide (n ≠ 0)
| jstr s => decide (s ≠ [])
| jarr _ => true
| jobj _ => true

/-- JS truthiness with `undefined` (`none`) false. -/
def jsTruthyO : Option JVal → Bool
| none => false
| some v => jsTruthy v

/-- JS strict equality `===` on primitive values; two objects or arrays read
from different places are distinct references, hence `false` (no alias can
arise between a token payload and a stored record). -/
def jsEqV : JVal → JVal → Bool
| jnull, jnull => true
| jbool a, jbool b => a == b
| jnum a, jnum b => a == b
| jstr a, jstr b => a == b
| _, _ => false

/-- Strict equality on possibly-undefined values; `undefined === undefined`
is true. -/
def jsEqO : Option JVal → Option JVal → Bool
| none, none => true
| some a, some b => jsEqV a b
| _, _ => false

/-- JS `ToString` of a value, as string concatenation coerces it.  An array
coerces through its joined elements (not modelled — never reached with an
array in this server); `undefined` is handled in `jsToStringO`. -/
def jsToString : JVal → List Char
| jnull => "null".data
| jbool true => "true".data
| jbool false => "false".data
| jnum n => intToChars n
| jstr s => s
| jarr _ => []
| jobj _ => "[object Object]".data

/-- JS `ToString` with `undefined` printing as the string `undefined`. -/
def jsToStringO : Option JVal → List Char
| none => "undefined".data
| some v => jsToString v

/-- JS `Number(x)` coercion; `none` is `NaN`. -/
def jsToNumberO : Option JVal → Option Int
| none => none
| some jnull => some 0
| some (jbool b) => some (if b then 1 else 0)
| some (jnum n) => some n
| some (jstr s) => strToNumber s
| some (jarr _) => none
| some (jobj _) => none

/-- A number stored into a record and serialized: `NaN` has no JSON form and
`JSON.stringify` writes it as `null`. -/
def numToJVal : Option Int → JVal
| some n => jnum n
| none => jnull

/-- Key of the record identifier field. -/
def idKey : List Char := "id".data

/-- The identifier for a new record (src/server.js lines 220, 280, 493):
one more than the identifier of the LAST stored record — not of the
maximum — or 1 when the collection is empty.  A non-numeric identifier
would make this `NaN` in JS; that never arises and is modelled as 0. -/
def nextId (records : List JObj) : Int :=
  match records.getLast? with
  | none => 1
  | some r =>
      match getField r idKey with
      | some (jnum n) => n + 1
      | _ => 0

/-- An error response body. -/
def errObj (msg : List Char) : JVal := jobj [("error".data, jstr msg)]

/-- `POST /api/register` (src/server.js lines 203-230).  The fresh random
salt is passed in, and the response is paired with the new users
collection. -/
def registerRoute (users : List JObj) (body : JVal) (salt : List Char)
    (h : List Char → Nat) : (Nat × JVal) × List JObj :=
  let username := getAttr body "username".data
  let password := getAttr body "password".data
  if !(jsTruthyO username) || !(jsTruthyO password) then
    ((400, errObj "Username and password are required".data), users)
  else if users.any (fun u => jsEqO (getField u "username".data) username) then
    ((409, errObj "Username already exists".data), users)
  else
    let user : JObj :=
      [(idKey, jnum (nextId users)),
       ("username".data, username.getD jnull),
       ("salt".data, jstr salt),
       ("hashed".data, jstr (hashPassword h (jsToStringO password) salt))]
    ((201, jobj [("message".data, jstr "User registered successfully".data)]),
      users ++ [user])

/-- Numeric identifier of a stored record (registration always stores a
numeric one). -/
def idNumOf (r : JObj) : Int :=
  match getField r idKey with
  | some (jnum n) => n
  | _ => 0

/-- `POST /api/login` (src/server.js lines 232-251): find the first user
with the given username, re-derive the digest from the submitted password
and the stored salt, compare, and issue a token on success.  The users
collection is not modified. -/
def loginRoute (h : List Char → Nat) (now : Int) (users : List JObj) (body : JVal) :
    Nat × JVal :=
  let username := getAttr body "username".data
  let password := getAttr body "password".data
  match users.find? (fun u => jsEqO (getField u "username".data) username) with
  | none => (401, errObj "Invalid username or password".data)
  | some user =>
      if !(jsEqO (some (jstr (hashPassword h (jsToStringO password)
          (jsToStringO (getField user "salt".data))))) (getField user "hashed".data)) then
        (401, errObj "Invalid username or password".data)
      else
        (200, jobj [("token".data, jstr (generateToken h (idNumOf user) now))])

/-- The single uniform unauthorized response (src/server.js lines 257-258). -/
def unauthorizedResp : Nat × JVal := (401, errObj "Unauthorized".data)

/-- `String.replace(pat, '')` for the first occurrence, as used on the
Authorization header (src/server.js line 254). -/
def replaceFirstAux : List Char → List Char → List Char
| [], _ => []
| c :: rest, pat =>
    if pat.isPrefixOf (c :: rest) then (c :: rest).drop pat.length
    else c :: replaceFirstAux rest pat

/-- JS `String.trim()`; the whitespace actually reaching it here is covered
by the four JSON whitespace characters. -/
def trimChars (s : List Char) : List Char :=
  (((s.dropWhile isWsChar).reverse).dropWhile isWsChar).reverse

/-- Extract the bearer token from the Authorization header (line 254). -/
def bearerToken (header : List Char) : List Char :=
  trimChars (replaceFirstAux header "Bearer ".data)

/-- The session gate (src/server.js lines 252-260): verify the extracted
token; a missing payload — or a falsy one, per `if (!payload)` — rejects. -/
def sessionGate (h : List Char → Nat) (now : Int) (header : List Char) : Option JVal :=
  match verifyToken h now (bearerToken header) with
  | none => none
  | some v => if !(jsTruthy v) then none else some v

/-- What an authenticated route sees: either the one unauthorized response,
or `payload.userId` (line 261). -/
def gateOutcome (h : List Char → Nat) (now : Int) (header : List Char) :
    Sum (Nat × JVal) (Option JVal) :=
  match sessionGate h now header with
  | none => Sum.inl unauthorizedResp
  | some payload => Sum.inr (getAttr payload userIdKey)

/-- `GET /api/expenses` and `GET /api/goals` (src/server.js lines 263-269
and 476-482): the records whose `userId` strictly equals the caller's. -/
def listForUser (userId : Option JVal) (records : List JObj) : List JObj :=
  records.filter (fun e => jsEqO (getField e userIdKey) userId)

/-- `POST /api/expenses` (src/server.js lines 271-291). -/
def postExpenseRoute (userId : Option JVal) (expenses : List JObj) (body : JVal)
    (nowIso : List Char) : (Nat × JVal) × List JObj :=
  let category := getAttr body "category".data
  let amount := getAttr body "amount".data
  let date := getAttr body "date".data
  if !(jsTruthyO category) || !(jsTruthyO amount) then
    ((400, errObj "Category and amount are required".data), expenses)
  else
    let expense : JObj :=
      [(idKey, jnum (nextId expenses)),
       (userIdKey, userId.getD jnull),
       ("category".data, category.getD jnull),
       ("amount".data, numToJVal (jsToNumberO amount)),
       ("date".data, if jsTruthyO date then date.getD jnull else jstr nowIso)]
    ((201, jobj expense), expenses ++ [expense])

/-- `Array.findIndex`, as `Option` instead of `-1`. -/
def findIndexJS (p : α → Bool) : List α → Option Nat
| [] => none
| a :: rest => if p a then some 0 else (findIndexJS p rest).map (fun i => i + 1)

/-- The record/owner match used by update and delete (lines 297, 313, 510,
526): `e.id === id && e.userId === userId`. -/
def ownedMatch (userId : Option JVal) (idNum : Int) (e : JObj) : Bool :=
  jsEqO (getField e idKey) (some (jnum idNum)) && jsEqO (getField e userIdKey) userId

/-- `PUT /api/expenses/:id` and `PUT /api/goals/:id` (src/server.js lines
293-308 and 506-521, identical logic): find the caller's record by id,
shallow-merge the whole parsed body over it in place.  Spreading a
non-object body adds no fields (a string body, which would add index keys,
is not modelled — no claim reaches it). -/
def updateByIdRoute (userId : Option JVal) (records : List JObj) (idNum : Int)
    (updates : JVal) (notFoundMsg : List Char) : (Nat × JVal) × List JObj :=
  match findIndexJS (ownedMatch userId idNum) records with
  | none => ((404, errObj notFoundMsg), records)
  | some i =>
      let merged :=
        match updates with
        | jobj u => u.foldl (fun acc kv => setField acc kv.1 kv.2) (records.getD i [])
        | _ => records.getD i []
      ((200, jobj merged), records.set i merged)

/-- `DELETE /api/expenses/:id` and `DELETE /api/goals/:id` (src/server.js
lines 310-324 and 523-537): splice out the caller's record by id, returning
the removed record. -/
def deleteByIdRoute (userId : Option JVal) (records : List JObj) (idNum : Int)
    (notFoundMsg : List Char) : (Nat × JVal) × List JObj :=
  match findIndexJS (ownedMatch userId idNum) records with
  | none => ((404, errObj notFoundMsg), records)
  | some i => ((200, jobj (records.getD i [])), records.eraseIdx i)

/-- `parseBody` (src/server.js lines 162-177): `JSON.parse(body || '\x7b\x7d')`
with every parse failure resolved as the empty object; it never rejects. -/
def parseBody (bodyText : List Char) : JVal :=
  match jsonParse (if bodyText = [] then "\x7b\x7d".data else bodyText) with
  | some v => v
  | none => jobj []

theorem jsEqO_some_jnum {x : Option JVal} {a : Int}
    (h : jsEqO x (some (jnum a)) = true) : x = some (jnum a) := by
  match x with
  | none => exact absurd h (by simp [jsEqO])
  | some jnull => exact absurd h (by simp [jsEqO, jsEqV])
  | some (jbool b) => exact absurd h (by simp [jsEqO, jsEqV])
  | some (jnum m) =>
    simp only [jsEqO, jsEqV, beq_iff_eq] at h
    rw [h]
  | some (jstr s) => exact absurd h (by simp [jsEqO, jsEqV])
  | some (jarr xs) => exact absurd h (by simp [jsEqO, jsEqV])
  | some (jobj o) => exact absurd h (by simp [jsEqO, jsEqV])

theorem jsEqO_some_jnum_self (a : Int) : jsEqO (some (jnum a)) (some (jnum a)) = true := by
  simp [jsEqO, jsEqV]

theorem findIndexJS_eq_none {p : α → Bool} {l : List α}
    (h : ∀ a ∈ l, p a = false) : findIndexJS p l = none := by
  induction l with
  | nil => rfl
  | cons a rest ih =>
    rw [findIndexJS, if_neg (by simp [h a (by simp)])]
    rw [ih (fun x hx => h x (by simp [hx]))]
    rfl

theorem findIndexJS_spec {p : JObj → Bool} {l : List JObj} {i : Nat}
    (h : findIndexJS p l = some i) : i < l.length ∧ p (l.getD i []) = true := by
  induction l generalizing i with
  | nil => exact absurd h (by simp [findIndexJS])
  | cons a rest ih =>
    rw [findIndexJS] at h
    by_cases hp : p a = true
    · rw [if_pos hp] at h
      injection h with h1
      subst h1
      exact ⟨by simp, hp⟩
    · rw [if_neg hp] at h
      obtain ⟨j, hj, rfl⟩ := Option.map_eq_some'.mp h
      obtain ⟨hlt, hpj⟩ := ih hj
      refine ⟨by simpa using hlt, ?_⟩
      simpa using hpj

theorem getField_cons (p : List Char × JVal) (rest : JObj) (k : List Char) :
    getField (p :: rest) k = if p.1 = k then some p.2 else getField rest k := by
  obtain ⟨a, b⟩ := p
  rfl

theorem getField_map_overwrite (o : JObj) (k1 k : List Char) (v : JVal) (h : k1 ≠ k) :
    getField (o.map (fun p => if p.1 = k1 then (k1, v) else p)) k = getField o k := by
  induction o with
  | nil => rfl
  | cons p rest ih =>
    obtain ⟨a, b⟩ := p
    simp only [List.map_cons]
    by_cases hak : a = k1
    · subst hak
      simp [getField_cons, h, ih]
    · simp only [if_neg hak, getField_cons]
      by_cases hak2 : a = k
      · simp [hak2]
      · simp only [hak2, if_false]
        exact ih

theorem getField_append_ne (o : JObj) (k1 k : List Char) (v : JVal) (h : k1 ≠ k) :
    getField (o ++ [(k1, v)]) k = getField o k := by
  induction o with
  | nil =>
    simp only [List.nil_append, getField_cons, getField]
    rw [if_neg h]
  | cons p rest ih =>
    simp only [List.cons_append, getField_cons]
    by_cases hpk : p.1 = k
    · simp [hpk]
    · simp only [hpk, if_false]
      exact ih

theorem getField_setField_ne (o : JObj) (k1 : List Char) (v : JVal) (k : List Char)
    (h : k1 ≠ k) : getField (setField o k1 v) k = getField o k := by
  rw [setField]
  by_cases hany : o.any (fun p => p.1 = k1) = true
  · rw [if_pos hany]
    exact getField_map_overwrite o k1 k v h
  · rw [if_neg hany]
    exact getField_append_ne o k1 k v h

theorem getField_mergeObj_ne (u : JObj) (o : JObj) (k : List Char)
    (h : ∀ kv ∈ u, kv.1 ≠ k) :
    getField (u.foldl (fun acc kv => setField acc kv.1 kv.2) o) k = getField o k := by
  induction u generalizing o with
  | nil => rfl
  | cons kv rest ih =>
    rw [List.foldl_cons]
    rw [ih _ (fun x hx => h x (by simp [hx]))]
    exact getField_setField_ne o kv.1 kv.2 k (h kv (by simp))

theorem list_set_get_self {α : Type} {l : List α} {i : Nat} (h : i < l.length) :
    l.set i (l.get ⟨i, h⟩) = l := by
  induction l generalizing i with
  | nil => simp at h
  | cons a rest ih =>
    cases i with
    | zero => rfl
    | succ j =>
      simp only [List.set_cons_succ, List.cons.injEq, true_and]
      simpa using ih (by simpa using h)

theorem trimChars_id (s : List Char) (h : ∀ c ∈ s, isWsChar c = false) :
    trimChars s = s := by
  have h1 : List.dropWhile isWsChar s = s := by
    cases s with
    | nil => rfl
    | cons c rest =>
      rw [List.dropWhile_cons, if_neg (by simp [h c (by simp)])]
  have h2 : List.dropWhile isWsChar s.reverse = s.reverse := by
    cases hrev : s.reverse with
    | nil => rfl
    | cons d t =>
      rw [List.dropWhile_cons, if_neg (by
        have hd : d ∈ s := by
          rw [← List.mem_reverse, hrev]
          simp
        simp [h d hd])]
  rw [trimChars, h1, h2, List.reverse_reverse]

theorem generateToken_no_ws (h : List Char → Nat) (u T : Int) :
    ∀ c ∈ generateToken h u T, isWsChar c = false := by
  intro c hc
  rw [generateToken_eq_segs] at hc
  rcases List.mem_append.mp hc with hc | hc
  · exact (b64encode_props _ (by
      intro b hb
      simp only [strBytes, List.mem_map] at hb
      obtain ⟨x, hx, rfl⟩ := hb
      exact stringifyPayload_bytes _ _ x hx) c hc).2
  · rcases List.mem_cons.mp hc with rfl | hc
    · decide
    · exact (toHex64_props _ c hc).2

theorem isPrefixOf_append (pat tok : List Char) : pat.isPrefixOf (pat ++ tok) = true := by
  induction pat with
  | nil => simp [List.isPrefixOf]
  | cons a as ih => simp [List.cons_append, List.isPrefixOf, ih]

theorem replaceFirstAux_pat (pat tok : List Char) (hpat : pat ≠ []) :
    replaceFirstAux (pat ++ tok) pat = tok := by
  cases pat with
  | nil => exact absurd rfl hpat
  | cons a as =>
    rw [List.cons_append, replaceFirstAux]
    rw [if_pos (by rw [← List.cons_append]; exact isPrefixOf_append (a :: as) tok)]
    rw [← List.cons_append, List.drop_left]

theorem bearerToken_of_append (tok : List Char) :
    bearerToken ("Bearer ".data ++ tok) = trimChars tok := by
  rw [bearerToken, replaceFirstAux_pat _ _ (by decide)]

theorem bearerToken_generated (h : List Char → Nat) (u T : Int) :
    bearerToken ("Bearer ".data ++ generateToken h u T) = generateToken h u T := by
  rw [bearerToken_of_append]
  exact trimChars_id _ (generateToken_no_ws h u T)

theorem verifyToken_bad_sig (h : List Char → Nat) (now : Int) (token p s : List Char)
    (hsplit : splitDot token = [p, s]) (hs : s ≠ digestHex h (p ++ SECRET)) :
    verifyToken h now token = none := by
  rw [verifyToken_eq_two h now token p s hsplit, if_neg hs]

theorem getAttr_payloadJ_userId (u e : Int) :
    getAttr (payloadJ u e) userIdKey = some (jnum u) := by
  rw [payloadJ, getAttr, getField, if_pos rfl]

theorem jsTruthy_payloadJ (u e : Int) : jsTruthy (payloadJ u e) = true := rfl

/-- A concrete stand-in digest function used to evaluate the token and
password machinery on explicit inputs (the theorems themselves hold for
every digest function). -/
def hashC (s : List Char) : Nat :=
  s.foldl (fun a c => (a * 31 + c.toNat) % (2 ^ 256)) 7

/-- C1: a token issued at T is accepted iff the verification instant is at
most T + 24h: strictly later instants are rejected, strictly earlier ones
accepted — and at exactly T + 24h the token is still accepted, because the
code rejects only when `payload.exp < Date.now()` is strict. -/
theorem C1_token_expiry (h : List Char → Nat) (u T now : Int) :
    (now ≤ T + 24 * 60 * 60 * 1000 →
      verifyToken h now (generateToken h u T) =
        some (payloadJ u (T + 24 * 60 * 60 * 1000))) ∧
    (T + 24 * 60 * 60 * 1000 < now →
      verifyToken h now (generateToken h u T) = none) := by
  constructor
  · intro hle
    rw [verifyToken_generateToken, if_neg (not_lt.mpr hle)]
  · intro hlt
    rw [verifyToken_generateToken, if_pos hlt]

/-- Witness for C1: with the concrete digest function, a token issued at 0
is accepted at instant 86400000 (exactly 24h) and rejected at 86400001. -/
theorem C1_token_expiry_witness :
    verifyToken hashC 86400000 (generateToken hashC 1 0) = some (payloadJ 1 86400000) ∧
    verifyToken hashC 86400001 (generateToken hashC 1 0) = none :=
  ⟨(C1_token_expiry hashC 1 0 86400000).1 (by decide),
   (C1_token_expiry hashC 1 0 86400001).2 (by decide)⟩

/-- C1 counterexample to the claim as stated: verification at exactly
T + 24h (issued at 0, verified at 86400000) is accepted, not rejected. -/
theorem C1_counterexample :
    (verifyToken hashC 86400000 (generateToken hashC 1 0)).isSome = true := by decide

/-- C6: token round-trip and tamper detection.  For every digest function,
user identifier and issuance instant, verifying an issued token before its
expiry yields a payload whose `userId` equals the issued one; and changing
any single character of the signature segment to a different character makes
verification reject. -/
theorem C6_roundtrip_tamper (h : List Char → Nat) (u T now : Int) :
    (now ≤ T + 24 * 60 * 60 * 1000 →
      (verifyToken h now (generateToken h u T)).bind (fun p => getAttr p userIdKey) =
        some (jnum u)) ∧
    (∀ (i : Nat) (hi : i < (sigSeg h u T).length) (c : Char),
      c ≠ (sigSeg h u T).get ⟨i, hi⟩ →
      verifyToken h now (payloadSeg u T ++ '.' :: (sigSeg h u T).set i c) = none) := by
  constructor
  · intro hle
    rw [verifyToken_generateToken, if_neg (not_lt.mpr hle)]
    rw [Option.some_bind, getAttr_payloadJ_userId]
  · intro i hi c hc
    exact verifyToken_tampered_sig h u T now i c hi hc

/-- Witness for C6: a concrete round trip at issuance instant 0, and the
rejection of the same token with the first signature character changed to
`g` (no hex digest contains `g`). -/
theorem C6_roundtrip_tamper_witness :
    (verifyToken hashC 0 (generateToken hashC 7 0)).bind (fun p => getAttr p userIdKey) =
      some (jnum 7) ∧
    verifyToken hashC 0 (payloadSeg 7 0 ++ '.' :: (sigSeg hashC 7 0).set 0 'g') = none :=
  ⟨(C6_roundtrip_tamper hashC 7 0 0).1 (by decide),
   (C6_roundtrip_tamper hashC 7 0 0).2 0 (by decide) 'g' (by decide)⟩

/-- C5 (amended): `verifyToken` rejects every token that does not split into
exactly two dot-separated parts, and — signature checked or not — rejects a
payload segment whose decoded bytes fail JSON parsing, as well as one
decoding to JSON `null` (whose property read throws).  No further structural
check exists: see the counterexample for a well-signed empty-object payload
that is accepted. -/
theorem C5_structural_rejection (h : List Char → Nat) (now : Int) (token : List Char) :
    ((splitDot token).length ≠ 2 → verifyToken h now token = none) ∧
    (∀ p s, splitDot token = [p, s] → jsonParse (bytesToStr (b64decode p)) = none →
      verifyToken h now token = none) ∧
    (∀ p s, splitDot token = [p, s] →
      jsonParse (bytesToStr (b64decode p)) = some jnull →
      verifyToken h now token = none) :=
  ⟨fun hl => verifyToken_not_two_parts h now token hl,
   fun p s h1 h2 => verifyToken_decode_fail h now token p s h1 h2,
   fun p s h1 h2 => verifyToken_null_payload h now token p s h1 h2⟩

/-- Witness for C5: a one-part token, a token whose payload segment decodes
to no JSON value, and a well-signed token whose payload is JSON `null` are
all rejected. -/
theorem C5_structural_rejection_witness :
    verifyToken hashC 0 ("abc".data) = none ∧
    verifyToken hashC 0 ("x.y".data) = none ∧
    verifyToken hashC 0 (b64encode (strBytes "null".data) ++ '.' :: ['x']) = none :=
  ⟨(C5_structural_rejection hashC 0 ("abc".data)).1 (by decide),
   (C5_structural_rejection hashC 0 ("x.y".data)).2.1 (['x']) (['y']) (by decide) (by rfl),
   (C5_structural_rejection hashC 0 _).2.2 (b64encode (strBytes "null".data)) (['x'])
     (by decide) (by rfl)⟩

/-- The payload segment of the C5 counterexample token: base64 of `{}`. -/
def c5payloadSeg : List Char := b64encode (strBytes ("\x7b\x7d".data))

/-- A token whose payload is the empty JSON object, correctly signed with
the concrete digest function. -/
def c5token : List Char := c5payloadSeg ++ '.' :: digestHex hashC (c5payloadSeg ++ SECRET)

/-- C5 counterexample to the claim as stated: a well-signed token whose
payload decodes to `{}` — an object carrying neither a user identifier nor
an expiry instant — is accepted by `verifyToken`, not rejected. -/
theorem C5_counterexample :
    verifyToken hashC 0 c5token = some (jobj []) ∧
    getAttr (jobj []) userIdKey = none ∧ getAttr (jobj []) expKey = none :=
  ⟨by rfl, rfl, rfl⟩

theorem gateOutcome_of_verify_none (h : List Char → Nat) (now : Int) (header : List Char)
    (hv : verifyToken h now (bearerToken header) = none) :
    gateOutcome h now header = Sum.inl unauthorizedResp := by
  rw [gateOutcome, sessionGate, hv]

/-- C9: for every header, the session gate either rejects with the one
unauthorized response or yields `payload.userId`; a missing token, a token
that is not two dot-separated parts, a signature mismatch and an expired
token all produce the literally identical `unauthorizedResp`, while a valid
token yields the issuing user's identifier. -/
theorem C9_uniform_unauthorized (h : List Char → Nat) (now : Int) :
    (gateOutcome h now [] = Sum.inl unauthorizedResp) ∧
    (∀ header, (splitDot (bearerToken header)).length ≠ 2 →
      gateOutcome h now header = Sum.inl unauthorizedResp) ∧
    (∀ header p s, splitDot (bearerToken header) = [p, s] →
      s ≠ digestHex h (p ++ SECRET) →
      gateOutcome h now header = Sum.inl unauthorizedResp) ∧
    (∀ u T : Int, T + 24 * 60 * 60 * 1000 < now →
      gateOutcome h now ("Bearer ".data ++ generateToken h u T) = Sum.inl unauthorizedResp) ∧
    (∀ u T : Int, now ≤ T + 24 * 60 * 60 * 1000 →
      gateOutcome h now ("Bearer ".data ++ generateToken h u T) =
        Sum.inr (some (jnum u))) := by
  refine ⟨rfl, ?_, ?_, ?_, ?_⟩
  · intro header hlen
    exact gateOutcome_of_verify_none h now header (verifyToken_not_two_parts h now _ hlen)
  · intro header p s hsplit hs
    exact gateOutcome_of_verify_none h now header (verifyToken_bad_sig h now _ p s hsplit hs)
  · intro u T hlt
    apply gateOutcome_of_verify_none
    rw [bearerToken_generated, verifyToken_generateToken, if_pos hlt]
  · intro u T hle
    rw [gateOutcome, sessionGate, bearerToken_generated, verifyToken_generateToken,
      if_neg (not_lt.mpr hle)]
    simp [jsTruthy_payloadJ, getAttr_payloadJ_userId]

/-- Witness for C9: the four rejection modes on concrete headers produce the
same response value, and a valid concrete token passes with its user id. -/
theorem C9_uniform_unauthorized_witness :
    gateOutcome hashC 3 [] = Sum.inl unauthorizedResp ∧
    gateOutcome hashC 3 ("Bearer abc".data) = Sum.inl unauthorizedResp ∧
    gateOutcome hashC 3 ("Bearer x.y".data) = Sum.inl unauthorizedResp ∧
    gateOutcome hashC 86400001 ("Bearer ".data ++ generateToken hashC 1 0) =
      Sum.inl unauthorizedResp ∧
    gateOutcome hashC 3 ("Bearer ".data ++ generateToken hashC 1 0) =
      Sum.inr (some (jnum 1)) :=
  ⟨(C9_uniform_unauthorized hashC 3).1,
   (C9_uniform_unauthorized hashC 3).2.1 ("Bearer abc".data) (by decide),
   (C9_uniform_unauthorized hashC 3).2.2.1 ("Bearer x.y".data) (['x']) (['y'])
     (by decide) (by decide),
   (C9_uniform_unauthorized hashC 86400001).2.2.2.1 1 0 (by decide),
   (C9_uniform_unauthorized hashC 3).2.2.2.2 1 0 (by decide)⟩

/-- C8: password verification is an exact-equality recompute.  For a stored
user whose digest was derived from some password and salt, logging in with a
password whose recomputed digest equals the stored one succeeds and issues a
token; any submission whose recomputed digest differs — a wrong password, or
a digest stored under a different salt, assuming the digests differ (the
collision-freeness of SHA-256 on these inputs) — yields the
invalid-credentials response, returned as a value rather than raised. -/
theorem C8_password_roundtrip (h : List Char → Nat) (now : Int) (users : List JObj)
    (body : JVal) (user : JObj) (uname pw salt dig : List Char) (uid : Int)
    (hbu : getAttr body ("username".data) = some (jstr uname))
    (hbp : getAttr body ("password".data) = some (jstr pw))
    (hfind : users.find? (fun u => jsEqO (getField u ("username".data))
      (some (jstr uname))) = some user)
    (hsalt : getField user ("salt".data) = some (jstr salt))
    (hhash : getField user ("hashed".data) = some (jstr dig))
    (hid : getField user idKey = some (jnum uid)) :
    (dig = hashPassword h pw salt →
      loginRoute h now users body =
        (200, jobj [("token".data, jstr (generateToken h uid now))])) ∧
    (dig ≠ hashPassword h pw salt →
      loginRoute h now users body = (401, errObj "Invalid username or password".data)) := by
  constructor
  · intro heq
    rw [loginRoute]
    simp only [hbu, hbp, hfind, hsalt, hhash]
    simp [jsEqO, jsEqV, jsToStringO, jsToString, heq, idNumOf, hid]
  · intro hne
    rw [loginRoute]
    simp only [hbu, hbp, hfind, hsalt, hhash]
    simp [jsEqO, jsEqV, jsToStringO, jsToString, idNumOf, hid]
    intro hcc
    exact absurd hcc.symm hne

/-- A concrete user record for the C8 witness. -/
def c8user : JObj :=
  [(idKey, jnum 1), ("username".data, jstr ("alice".data)),
   ("salt".data, jstr ("s1".data)),
   ("hashed".data, jstr (hashPassword hashC ("pw".data) ("s1".data)))]

/-- A concrete login body for the C8 witness. -/
def c8body (pw : List Char) : JVal :=
  jobj [("username".data, jstr ("alice".data)), ("password".data, jstr pw)]

/-- Witness for C8: the registered password logs in and gets the expected
token; a wrong password gets the invalid-credentials response. -/
theorem C8_password_roundtrip_witness :
    loginRoute hashC 5 [c8user] (c8body ("pw".data)) =
      (200, jobj [("token".data, jstr (generateToken hashC 1 5))]) ∧
    loginRoute hashC 5 [c8user] (c8body ("xx".data)) =
      (401, errObj "Invalid username or password".data) :=
  ⟨(C8_password_roundtrip hashC 5 [c8user] (c8body ("pw".data)) c8user ("alice".data)
      ("pw".data) ("s1".data) (hashPassword hashC ("pw".data) ("s1".data)) 1
      rfl rfl (by rfl) rfl rfl rfl).1 rfl,
   (C8_password_roundtrip hashC 5 [c8user] (c8body ("xx".data)) c8user ("alice".data)
      ("xx".data) ("s1".data) (hashPassword hashC ("pw".data) ("s1".data)) 1
      rfl rfl (by rfl) rfl rfl rfl).2 (by decide)⟩

/-- C10: request-body parsing is total.  `parseBody` is a total function; an
empty body and a body that fails JSON parsing both parse to the empty
object, and feeding such a body to registration produces the ordinary
missing-field validation response, not an error. -/
theorem C10_parseBody_total :
    (parseBody [] = jobj []) ∧
    (∀ bodyText : List Char, jsonParse bodyText = none → parseBody bodyText = jobj []) ∧
    (∀ (bodyText : List Char) (users : List JObj) (salt : List Char)
      (h : List Char → Nat), jsonParse bodyText = none →
      registerRoute users (parseBody bodyText) salt h =
        ((400, errObj "Username and password are required".data), users)) := by
  refine ⟨rfl, ?_, ?_⟩
  · intro b hb
    rw [parseBody]
    by_cases he : b = []
    · subst he
      rfl
    · rw [if_neg he, hb]
  · intro b users salt h hb
    have hpb : parseBody b = jobj [] := by
      rw [parseBody]
      by_cases he : b = []
      · subst he
        rfl
      · rw [if_neg he, hb]
    rw [hpb]
    rfl

/-- Witness for C10: a malformed body behaves as the empty object and makes
registration return the missing-field validation error. -/
theorem C10_parseBody_total_witness :
    parseBody ("not json".data) = jobj [] ∧
    registerRoute [] (parseBody ("not json".data)) ("s".data) hashC =
      ((400, errObj "Username and password are required".data), []) :=
  ⟨C10_parseBody_total.2.1 ("not json".data) (by rfl),
   C10_parseBody_total.2.2 ("not json".data) [] ("s".data) hashC (by rfl)⟩

/-- A collection whose last record does not carry the maximum identifier. -/
def c2state : List JObj :=
  [[(idKey, jnum 5), (userIdKey, jnum 1)], [(idKey, jnum 3), (userIdKey, jnum 1)]]

/-- C2 counterexample to the claim as stated: on a collection holding
identifiers [5, 3], the insert assigns 3 + 1 = 4 — one more than the LAST
record's identifier — although the maximum is 5, so the assigned identifier
is not `max + 1 = 6`. -/
theorem C2_counterexample :
    ((postExpenseRoute (some (jnum 1)) c2state
        (jobj [("category".data, jstr ("food".data)), ("amount".data, jnum 2)])
        ("d".data)).2.map (fun r => getField r idKey)) =
      [some (jnum 5), some (jnum 3), some (jnum 4)] ∧
    (4 : Int) ≠ 5 + 1 := ⟨by rfl, by decide⟩

/-- A fixed valid expense-creation body. -/
def demoExpenseBody : JVal :=
  jobj [("category".data, jstr ("food".data)), ("amount".data, jnum 1)]

/-- The expenses collection after n sequential valid creations starting from
the empty collection. -/
def expSeq (uid : Int) (iso : List Char) : Nat → List JObj
| 0 => []
| n + 1 => (postExpenseRoute (some (jnum uid)) (expSeq uid iso n) demoExpenseBody iso).2

theorem postExpense_demo_step (uid : Int) (iso : List Char) (st : List JObj) :
    (postExpenseRoute (some (jnum uid)) st demoExpenseBody iso).2 =
      st ++ [[(idKey, jnum (nextId st)), (userIdKey, jnum uid),
        ("category".data, jstr ("food".data)), ("amount".data, jnum 1),
        ("date".data, jstr iso)]] := rfl

/-- C2 (amended): the assigned identifier is one more than the identifier of
the last stored record (1 on an empty collection), and therefore inserting N
records sequentially into an initially empty collection assigns identifiers
1..N in order, with no gaps and no repeats. -/
theorem C2_sequential_ids (uid : Int) (iso : List Char) (n : Nat) :
    ((expSeq uid iso n).map (fun r => getField r idKey) =
      (List.range n).map (fun i : Nat => some (jnum ((i : Int) + 1)))) ∧
    ((expSeq uid iso n).map (fun r => getField r idKey)).Nodup := by
  have main : ∀ m : Nat, (expSeq uid iso m).map (fun r => getField r idKey) =
      (List.range m).map (fun i : Nat => some (jnum ((i : Int) + 1))) := by
    intro m
    induction m with
    | zero => rfl
    | succ k ih =>
      have hnext : nextId (expSeq uid iso k) = (k : Int) + 1 := by
        cases k with
        | zero => rfl
        | succ j =>
          have hlast : ((expSeq uid iso (j + 1)).map
              (fun r => getField r idKey)).getLast? =
              some (some (jnum ((j : Int) + 1))) := by
            rw [ih, List.range_succ, List.map_append]
            simp [List.getLast?_concat]
          rw [List.getLast?_map] at hlast
          obtain ⟨r, hr, hfr⟩ := Option.map_eq_some'.mp hlast
          simp only [nextId, hr, hfr]
          push_cast
          ring
      rw [show expSeq uid iso (k + 1) =
        (postExpenseRoute (some (jnum uid)) (expSeq uid iso k) demoExpenseBody iso).2
        from rfl]
      rw [postExpense_demo_step, List.map_append, ih, hnext, List.range_succ,
        List.map_append]
      rfl
  refine ⟨main n, ?_⟩
  rw [main n]
  apply List.Nodup.map
  · intro a b hab
    simp only [Option.some.injEq, JVal.jnum.injEq] at hab
    omega
  · exact List.nodup_range n

/-- C7 counterexample to the claim as stated: a request with category
`food` and amount −5 passes the truthiness check `!category || !amount`
(−5 is truthy) and stores an expense whose amount is the negative number
−5; the route answers 201. -/
theorem C7_counterexample :
    ((postExpenseRoute (some (jnum 1)) []
        (jobj [("category".data, jstr ("food".data)), ("amount".data, jnum (-5))])
        ("d".data)).2.map (fun r => getField r ("amount".data)) = [some (jnum (-5))]) ∧
    ((postExpenseRoute (some (jnum 1)) []
        (jobj [("category".data, jstr ("food".data)), ("amount".data, jnum (-5))])
        ("d".data)).1.1 = 201) :=
  ⟨rfl, rfl⟩

/-- C7 (amended): for a request body carrying a numeric amount `a`, expense
creation rejects with the validation error exactly when the category is
falsy or `a = 0` (the only falsy number); otherwise it appends one record
whose stored amount is exactly `a` — so a zero amount is never stored, but
a negative amount is stored as given, positivity is not enforced. -/
theorem C7_amount_validation (userId : Option JVal) (st : List JObj) (body : JVal)
    (iso : List Char) (a : Int)
    (ha : getAttr body ("amount".data) = some (jnum a)) :
    ((jsTruthyO (getAttr body ("category".data)) = false ∨ a = 0) →
      postExpenseRoute userId st body iso =
        ((400, errObj "Category and amount are required".data), st)) ∧
    (jsTruthyO (getAttr body ("category".data)) = true → a ≠ 0 →
      (postExpenseRoute userId st body iso).2 =
        st ++ [[(idKey, jnum (nextId st)), (userIdKey, userId.getD jnull),
          ("category".data, (getAttr body ("category".data)).getD jnull),
          ("amount".data, jnum a),
          ("date".data, if jsTruthyO (getAttr body ("date".data)) then
            (getAttr body ("date".data)).getD jnull else jstr iso)]]) := by
  constructor
  · intro hrej
    rw [postExpenseRoute]
    rcases hrej with hcat | ha0
    · simp [ha, hcat]
    · subst ha0
      have hfa : jsTruthyO (some (jnum 0)) = false := rfl
      simp [ha, hfa]
  · intro hcat ha0
    rw [postExpenseRoute]
    have hta : jsTruthyO (some (jnum a)) = true := by
      simp [jsTruthyO, jsTruthy, ha0]
    simp [ha, hcat, hta, jsToNumberO, numToJVal]

/-- Witness for C7: a creation with a positive amount stores it; one with a
zero amount is rejected. -/
theorem C7_amount_validation_witness :
    (postExpenseRoute (some (jnum 1)) []
      (jobj [("category".data, jstr ("food".data)), ("amount".data, jnum 3)])
      ("d".data)).2 =
      [[(idKey, jnum 1), (userIdKey, jnum 1),
        ("category".data, jstr ("food".data)), ("amount".data, jnum 3),
        ("date".data, jstr ("d".data))]] ∧
    postExpenseRoute (some (jnum 1)) []
      (jobj [("category".data, jstr ("food".data)), ("amount".data, jnum 0)])
      ("d".data) =
      ((400, errObj "Category and amount are required".data), []) :=
  ⟨(C7_amount_validation (some (jnum 1)) []
      (jobj [("category".data, jstr ("food".data)), ("amount".data, jnum 3)])
      ("d".data) 3 rfl).2 (by rfl) (by decide),
   (C7_amount_validation (some (jnum 1)) []
      (jobj [("category".data, jstr ("food".data)), ("amount".data, jnum 0)])
      ("d".data) 0 rfl).1 (Or.inr rfl)⟩

/-- C4: per-user isolation.  For distinct users A and B: the expense list of
A never contains a record owned by B; and when the targeted identifier
belongs to a record of B (identifiers being collection-wide unique), A's
delete finds nothing — `e.id === id && e.userId === userId` fails on every
record — so it answers 404 and returns the collection completely
unchanged. -/
theorem C4_isolation (A B : Int) (st : List JObj) (hAB : A ≠ B) :
    (∀ r ∈ listForUser (some (jnum A)) st, getField r userIdKey ≠ some (jnum B)) ∧
    (∀ (I : Int) (r0 : JObj) (msg : List Char),
      (st.map (fun r => getField r idKey)).Nodup →
      r0 ∈ st → getField r0 idKey = some (jnum I) →
      getField r0 userIdKey = some (jnum B) →
      deleteByIdRoute (some (jnum A)) st I msg = ((404, errObj msg), st)) := by
  constructor
  · intro r hr
    have hp := List.of_mem_filter hr
    have := jsEqO_some_jnum hp
    rw [this]
    intro hcc
    injection hcc with h1
    injection h1 with h2
    exact hAB h2
  · intro I r0 msg hnodup hr0 hid0 huser0
    have hnone : findIndexJS (ownedMatch (some (jnum A)) I) st = none := by
      apply findIndexJS_eq_none
      intro e he
      by_cases hbe : jsEqO (getField e idKey) (some (jnum I)) = true
      · have heid : getField e idKey = some (jnum I) := jsEqO_some_jnum hbe
        have heq : e = r0 := by
          apply List.inj_on_of_nodup_map hnodup he hr0
          rw [heid, hid0]
        subst heq
        have hBA : jsEqO (some (jnum B)) (some (jnum A)) = false := by
          simp only [jsEqO, jsEqV, beq_eq_false_iff_ne, ne_eq]
          exact fun hba => hAB hba.symm
        rw [ownedMatch, huser0, hBA, Bool.and_false]
      · have hbe2 : jsEqO (getField e idKey) (some (jnum I)) = false := by
          revert hbe
          cases jsEqO (getField e idKey) (some (jnum I)) <;> simp
        rw [ownedMatch, hbe2, Bool.false_and]
    rw [deleteByIdRoute, hnone]

/-- A concrete two-user collection for the C4 witness: the only expense,
with identifier 7, belongs to user 2. -/
def c4state : List JObj := [[(idKey, jnum 7), (userIdKey, jnum 2)]]

/-- Witness for C4: user 1 deleting expense 7 — owned by user 2 — gets 404
and the stored collection is unchanged; and user 1's list never shows user
2's record. -/
theorem C4_isolation_witness :
    deleteByIdRoute (some (jnum 1)) c4state 7 ("Expense not found".data) =
      ((404, errObj ("Expense not found".data)), c4state) ∧
    (∀ r ∈ listForUser (some (jnum 1)) c4state, getField r userIdKey ≠ some (jnum 2)) :=
  ⟨(C4_isolation 1 2 c4state (by decide)).2 7 [(idKey, jnum 7), (userIdKey, jnum 2)]
      ("Expense not found".data) (by simp [c4state]) (by simp [c4state]) rfl rfl,
   (C4_isolation 1 2 c4state (by decide)).1⟩

/-- A one-record expense collection for C3. -/
def c3state : List JObj :=
  [[(idKey, jnum 1), (userIdKey, jnum 1), ("category".data, jstr ("a".data))]]

/-- C3 counterexample to the claim as stated: the shallow merge of
`PUT /api/expenses/1` spreads every field of the request body over the
stored record, so a body containing `id: 2` changes the record's identifier
from 1 to 2 (and a body containing `userId` would likewise reassign the
owner). -/
theorem C3_counterexample :
    ((updateByIdRoute (some (jnum 1)) c3state 1 (jobj [(idKey, jnum 2)])
        ("Expense not found".data)).2.map (fun r => getField r idKey)) =
      [some (jnum 2)] := rfl

/-- C3 (amended): provided the update body contains neither an `id` nor a
`userId` field, the shallow merge preserves both: the updated collection has
the same identifier sequence (hence identifier uniqueness is preserved
whenever it held), and the updated record still carries its original
`userId`, which matched the authenticated caller. -/
theorem C3_update_preserves (userId : Option JVal) (st : List JObj) (I : Int)
    (u : JObj) (msg : List Char) (i : Nat)
    (hfind : findIndexJS (ownedMatch userId I) st = some i)
    (hnoid : ∀ kv ∈ u, kv.1 ≠ idKey)
    (hnouser : ∀ kv ∈ u, kv.1 ≠ userIdKey) :
    (((updateByIdRoute userId st I (jobj u) msg).2).map (fun r => getField r idKey) =
      st.map (fun r => getField r idKey)) ∧
    (((updateByIdRoute userId st I (jobj u) msg).2).map (fun r => getField r userIdKey) =
      st.map (fun r => getField r userIdKey)) ∧
    ((st.map (fun r => getField r idKey)).Nodup →
      (((updateByIdRoute userId st I (jobj u) msg).2).map
        (fun r => getField r idKey)).Nodup) ∧
    (jsEqO (getField ((updateByIdRoute userId st I (jobj u) msg).2.getD i [])
      userIdKey) userId = true) := by
  obtain ⟨hlt, hmatch⟩ := findIndexJS_spec hfind
  have hroute : updateByIdRoute userId st I (jobj u) msg =
      ((200, jobj (u.foldl (fun acc kv => setField acc kv.1 kv.2) (st.getD i []))),
        st.set i (u.foldl (fun acc kv => setField acc kv.1 kv.2) (st.getD i []))) := by
    simp only [updateByIdRoute, hfind]
  have hgetold : st.getD i [] = st.get ⟨i, hlt⟩ := by
    rw [List.getD_eq_getElem _ _ hlt]
    simp
  have hmapkey : ∀ k : List Char, (∀ kv ∈ u, kv.1 ≠ k) →
      (st.set i (u.foldl (fun acc kv => setField acc kv.1 kv.2) (st.getD i []))).map
        (fun r => getField r k) = st.map (fun r => getField r k) := by
    intro k hk
    rw [List.map_set, getField_mergeObj_ne u _ k hk, hgetold]
    have hfi : getField (st.get ⟨i, hlt⟩) k =
        (st.map (fun r => getField r k)).get ⟨i, by simpa using hlt⟩ := by
      simp
    rw [hfi, list_set_get_self]
  refine ⟨?_, ?_, ?_, ?_⟩
  · rw [hroute]
    dsimp only
    exact hmapkey idKey hnoid
  · rw [hroute]
    dsimp only
    exact hmapkey userIdKey hnouser
  · intro hnodup
    rw [hroute]
    dsimp only
    rw [hmapkey idKey hnoid]
    exact hnodup
  · rw [hroute]
    dsimp only
    have hlt2 : i < (st.set i (u.foldl (fun acc kv => setField acc kv.1 kv.2)
        (st.getD i []))).length := by simpa using hlt
    have hset : (st.set i (u.foldl (fun acc kv => setField acc kv.1 kv.2)
        (st.getD i []))).getD i [] =
        u.foldl (fun acc kv => setField acc kv.1 kv.2) (st.getD i []) := by
      rw [List.getD_eq_getElem _ _ hlt2, List.getElem_set_self hlt2]
    rw [hset, getField_mergeObj_ne u _ userIdKey hnouser]
    have hm2 := hmatch
    rw [ownedMatch, Bool.and_eq_true] at hm2
    exact hm2.2

/-- Witness for C3: an update whose body touches only `category` leaves the
identifier sequence unchanged and the record still belongs to user 1. -/
theorem C3_update_preserves_witness :
    (((updateByIdRoute (some (jnum 1)) c3state 1
        (jobj [("category".data, jstr ("b".data))])
        ("Expense not found".data)).2).map (fun r => getField r idKey) =
      c3state.map (fun r => getField r idKey)) ∧
    jsEqO (getField ((updateByIdRoute (some (jnum 1)) c3state 1
        (jobj [("category".data, jstr ("b".data))])
        ("Expense not found".data)).2.getD 0 []) userIdKey) (some (jnum 1)) = true :=
  ⟨(C3_update_preserves (some (jnum 1)) c3state 1 [("category".data, jstr ("b".data))]
      ("Expense not found".data) 0 (by decide) (by decide) (by decide)).1,
   (C3_update_preserves (some (jnum 1)) c3state 1 [("category".data, jstr ("b".data))]
      ("Expense not found".data) 0 (by decide) (by decide) (by decide)).2.2.2⟩
